import Mathlib

/-!
Verification of the incremental word-frequency engine of the
obsidian-word-scraper plugin (`src/main.ts`, final revision).  JavaScript
plain objects used as string-keyed maps are embedded as association lists
(`List (String × Int)`); JS `undefined` is embedded as `Option.none`.
-/

namespace WordScraper

/-- Reading `m[k]` from a JS object used as a map: the value if the key is
present, `none` for `undefined`. -/
def objGet : List (String × Int) → String → Option Int
  | [], _ => none
  | (k, v) :: rest, key => if k = key then some v else objGet rest key

/-- Writing `m[k] = v` on a JS object: replaces the value in place if the
key is present, otherwise appends the key at the end (JS insertion order). -/
def objSet : List (String × Int) → String → Int → List (String × Int)
  | [], key, val => [(key, val)]
  | (k, v) :: rest, key, val =>
    if k = key then (k, val) :: rest else (k, v) :: objSet rest key val

/-- `delete m[k]` on a JS object. -/
def objDelete : List (String × Int) → String → List (String × Int)
  | [], _ => []
  | (k, v) :: rest, key =>
    if k = key then objDelete rest key else (k, v) :: objDelete rest key

/-- JS truthiness of `m[word]` for a numeric map: `undefined` and `0` are
falsy, any other number is truthy. -/
def jsTruthy : Option Int → Bool
  | some v => v != 0
  | none => false

/-- The JS word-character class `\w` = `[A-Za-z0-9_]` (ASCII). -/
def isWordChar (c : Char) : Bool := c.isAlphanum || c = '_'

/-- Accumulator-based splitter producing the maximal runs of word
characters of a character list (`cur` is the current run, reversed). -/
def wordRunsAux : List Char → List Char → List (List Char)
  | [], cur => if cur.isEmpty then [] else [cur.reverse]
  | c :: cs, cur =>
    if isWordChar c then wordRunsAux cs (c :: cur)
    else if cur.isEmpty then wordRunsAux cs []
    else cur.reverse :: wordRunsAux cs []

/-- Embedding of `text.match(/\b\w+\b/g) || []`: the list of maximal runs
of word characters of `text`, in order of appearance. -/
def wordsOf (s : String) : List String :=
  (wordRunsAux s.toList []).map (fun l => String.mk l)

/-- Embedding of
`words.forEach(word => freq[word] = (freq[word] || 0) + 1)` folded from
the empty object: the occurrence-count map of a token list. -/
def countFreq (ws : List String) : List (String × Int) :=
  ws.foldl (fun m w => objSet m w ((objGet m w).getD 0 + 1)) []

/-- Deduplication keeping first occurrences, with the already-seen keys as
accumulator; embeds iteration over `new Set([...])`. -/
def firstDedupAux (seen : List String) : List String → List String
  | [] => []
  | a :: l =>
    if seen.contains a then firstDedupAux seen l
    else a :: firstDedupAux (a :: seen) l

/-- Key list of `new Set([...Object.keys(o), ...Object.keys(n)])`: first
occurrences, in insertion order. -/
def firstDedup (l : List String) : List String := firstDedupAux [] l

/-- One iteration of the delta loop of `handleChange` for the word `word`:
`delta = newCount - oldCount`; `freq[word] += delta` if `freq[word]` is
truthy else `freq[word] = delta`; then `delete` if the stored value is
`<= 0`. -/
def deltaStep (oldF newF : List (String × Int)) (acc : List (String × Int))
    (word : String) : List (String × Int) :=
  let oldCount := (objGet oldF word).getD 0
  let newCount := (objGet newF word).getD 0
  let delta := newCount - oldCount
  let acc2 :=
    if jsTruthy (objGet acc word) then
      objSet acc word ((objGet acc word).getD 0 + delta)
    else
      objSet acc word delta
  if (objGet acc2 word).getD 0 ≤ 0 then objDelete acc2 word else acc2

/-- The whole delta loop of `handleChange` (src/main.ts lines 541-555):
iterate `deltaStep` over the set-union of the keys of the old and new
per-snapshot frequency maps. -/
def applyDeltas (acc oldF newF : List (String × Int)) : List (String × Int) :=
  (firstDedup (oldF.map Prod.fst ++ newF.map Prod.fst)).foldl
    (deltaStep oldF newF) acc

/-- Structural embedding of JS `s.split(sep)` for a one-character
separator (splits at every occurrence, keeps empty pieces). -/
def splitOnCharAux (sep : Char) : List Char → List Char → List String
  | [], cur => [String.mk cur.reverse]
  | c :: cs, cur =>
    if c = sep then String.mk cur.reverse :: splitOnCharAux sep cs []
    else splitOnCharAux sep cs (c :: cur)

/-- JS `s.split('\n')` style splitting. -/
def splitOnChar (sep : Char) (s : String) : List String :=
  splitOnCharAux sep s.toList []

/-- Embedding of JS `s.startsWith(pre)`. -/
def strStartsWith (s pre : String) : Bool := pre.toList.isPrefixOf s.toList

/-- Embedding of JS `s.toLowerCase()` on ASCII text. -/
def strToLower (s : String) : String := String.mk (s.toList.map Char.toLower)

/-- An instant of real time, carrying the two calendar dates (as
`YYYY-MM-DD` strings) it can be rendered to: the UTC one and the one of
the user's local time zone. -/
structure Instant where
  utcDate : String
  localDate : String
deriving DecidableEq

/-- Embedding of `new Date().toISOString().slice(0, 10)`: `toISOString`
renders the instant in UTC, so the sliced prefix is the UTC calendar
date. -/
def currentDateString (i : Instant) : String := i.utcDate

/-- The single `data.json` blob read by `loadData()` and overwritten whole
by every `saveData(...)` call.  A field that is absent from the stored
JSON is `none` (JS `undefined`).  `saveData(this.state)` fills the first
four fields; `saveData(this.settings)` fills the last three. -/
structure DataJson where
  wordFrequency : Option (List (String × Int)) := none
  lastKnownDate : Option String := none
  currentFile : Option String := none
  lastContent : Option String := none
  lastUpdated : Option String := none
  folderPath : Option String := none
  excludedFolders : Option String := none
deriving DecidableEq

/-- An `editor-change` notification as observed by `handleChange`:
whether the delivered `Editor` is the editor of the active Markdown view,
the editor's full content (`change.getValue()`), and the path of the
active file (`getActiveFile()`, `none` when there is no active file). -/
structure Notification where
  isActiveEditor : Bool
  content : String
  activeFile : Option String
deriving DecidableEq

/-- The fields of `WordScraperPlugin` that the tracked claims are about:
settings, the live aggregate `wordFrequency`, the cached daily file, the
Change Tracker fields, the persisted `state` object (whose fields may be
JS `undefined`, hence `Option`), the storage slot written by `saveData`,
the outstanding debounce timers (their delays), and the log of ledger
writes done by `vault.modify`. -/
structure PluginState where
  settings_lastUpdated : String
  settings_folderPath : String
  settings_excludedFolders : String
  wordFrequency : List (String × Int)
  dailyMdFile : Option String
  updateScheduled : Bool
  fileInitialized : Bool
  currentFile : String
  lastContent : String
  state_wordFrequency : Option (List (String × Int))
  state_lastKnownDate : Option String
  state_currentFile : Option String
  state_lastContent : Option String
  savedSlot : Option DataJson
  pendingFlushes : List Nat
  ledgerWrites : List (String × String)
deriving DecidableEq

/-- The body of the daily Markdown file written by `updateDailyMdFile`
(src/main.ts lines 601-613): the wordcloud header followed by one
`word: count` line per positive entry of the aggregate. -/
def ledgerContent (freq : List (String × Int)) : String :=
  String.intercalate "\n"
    (["```wordcloud", "source: file", "```", ""] ++
      ((freq.filter (fun p => decide (0 < p.2))).map
        (fun p => p.1 ++ ": " ++ toString p.2)))

/-- The daily ledger path
`` `${this.settings.folderPath}/WordScraper-${today}.md` `` where `today`
comes from `toISOString` (src/main.ts line 590). -/
def dailyFileName (folderPath : String) (i : Instant) : String :=
  folderPath ++ "/WordScraper-" ++ currentDateString i ++ ".md"

/-- Embedding of `updateDailyMdFile` (src/main.ts lines 585-620): resolve
the target file (the cached `dailyMdFile` if set, else the file named
after today's date) and overwrite it with the ledger rendered from the
live `wordFrequency`. -/
def updateDailyMdFile (st : PluginState) (i : Instant) : PluginState :=
  let fileName := dailyFileName st.settings_folderPath i
  let target := st.dailyMdFile.getD fileName
  let content := ledgerContent st.wordFrequency
  { st with
    dailyMdFile := some target
    ledgerWrites := st.ledgerWrites ++ [(target, content)] }

/-- The guard of src/main.ts lines 512-515:
`activeFile && excludedFolders.some(folder => activeFile.path.startsWith(folder))`
with `excludedFolders = this.settings.excludedFolders.split('\n').filter(Boolean)`. -/
def isExcludedNotification (st : PluginState) (n : Notification) : Bool :=
  match n.activeFile with
  | some path =>
    ((splitOnChar '\n' st.settings_excludedFolders).filter
      (fun s => !(s == ""))).any (fun folder => strStartsWith path folder)
  | none => false

/-- src/main.ts lines 518-521: when the active file's path differs from
the tracked one, retarget the tracker and clear `fileInitialized`. -/
def trackIdentity (st : PluginState) (n : Notification) : PluginState :=
  match n.activeFile with
  | some path =>
    if path ≠ st.currentFile then
      { st with currentFile := path, fileInitialized := false }
    else st
  | none => st

/-- src/main.ts lines 530-580: tokenize the baseline and the new content,
count each, run the delta loop on the live aggregate, advance the
baseline, debounce-schedule a flush (fixed 1000 ms delay), sync the
`state` object and save it. -/
def diffAndApply (st : PluginState) (newContent : String) : PluginState :=
  let oldWordFrequency := countFreq (wordsOf st.lastContent)
  let newWordFrequency := countFreq (wordsOf newContent)
  let wf := applyDeltas st.wordFrequency oldWordFrequency newWordFrequency
  let st2 := { st with wordFrequency := wf, lastContent := newContent }
  let st3 :=
    if !st2.updateScheduled then
      { st2 with
        updateScheduled := true
        pendingFlushes := st2.pendingFlushes ++ [1000] }
    else st2
  let st4 :=
    { st3 with
      state_wordFrequency := some st3.wordFrequency
      state_currentFile := some st3.currentFile
      state_lastContent := some st3.lastContent }
  { st4 with
    savedSlot := some
      { wordFrequency := st4.state_wordFrequency
        lastKnownDate := st4.state_lastKnownDate
        currentFile := st4.state_currentFile
        lastContent := st4.state_lastContent } }

/-- Embedding of `handleChange` (src/main.ts lines 499-582): ignore
changes not coming from the active view's editor, skip excluded files,
re-baseline (with no delta) on identity change or first sight, otherwise
diff against the baseline and apply. -/
def handleChange (st : PluginState) (n : Notification) : PluginState :=
  if n.isActiveEditor then
    if isExcludedNotification st n then st
    else
      let st1 := trackIdentity st n
      if !st1.fileInitialized then
        { st1 with lastContent := n.content, fileInitialized := true }
      else diffAndApply st1 n.content
  else st

/-- Embedding of `checkDateAndReset` (src/main.ts lines 623-636): when
today's date string differs from `this.state.lastKnownDate`, reset
`this.state.wordFrequency` (the persisted copy only), record the new
date, save the state, drop the cached daily file and rewrite the ledger. -/
def checkDateAndReset (st : PluginState) (i : Instant) : PluginState :=
  if st.state_lastKnownDate ≠ some (currentDateString i) then
    updateDailyMdFile
      { st with
        state_wordFrequency := some []
        state_lastKnownDate := some (currentDateString i)
        savedSlot := some
          { wordFrequency := some []
            lastKnownDate := some (currentDateString i)
            currentFile := st.state_currentFile
            lastContent := st.state_lastContent }
        dailyMdFile := none } i
  else st

/-- Embedding of `onload` together with `loadSettings` (src/main.ts lines
450-490 and 660-662): `loadSettings` overlays the stored blob on the
defaults (`lastUpdated ''`, `folderPath '/'`, `excludedFolders ''`);
`this.state = await this.loadData() || fresh` takes the stored blob's
state fields as they are (possibly `undefined`) or a fresh state when
nothing is stored.  Every live working field (`wordFrequency`,
`lastContent`, `currentFile`, `fileInitialized`, ...) starts at its
declared initial value; nothing is copied into them from the loaded
state. -/
def onloadState (stored : Option DataJson) (i : Instant) : PluginState :=
  { settings_lastUpdated := ((stored.bind (fun d => d.lastUpdated)).getD "")
    settings_folderPath := ((stored.bind (fun d => d.folderPath)).getD "/")
    settings_excludedFolders := ((stored.bind (fun d => d.excludedFolders)).getD "")
    wordFrequency := []
    dailyMdFile := none
    updateScheduled := false
    fileInitialized := false
    currentFile := ""
    lastContent := ""
    state_wordFrequency :=
      match stored with
      | some d => d.wordFrequency
      | none => some []
    state_lastKnownDate :=
      match stored with
      | some d => d.lastKnownDate
      | none => some (currentDateString i)
    state_currentFile :=
      match stored with
      | some d => d.currentFile
      | none => some ""
    state_lastContent :=
      match stored with
      | some d => d.lastContent
      | none => some ""
    savedSlot := stored
    pendingFlushes := []
    ledgerWrites := [] }

/-- Embedding of `saveSettings` (src/main.ts lines 665-667):
`saveData(this.settings)` overwrites the whole storage slot with the
settings blob. -/
def saveSettingsData (st : PluginState) : PluginState :=
  { st with
    savedSlot := some
      { lastUpdated := some st.settings_lastUpdated
        folderPath := some st.settings_folderPath
        excludedFolders := some st.settings_excludedFolders } }

/-- The events that drive the plugin: an editor-change notification, the
firing of an outstanding debounce timer (whose callback runs
`updateDailyMdFile` and clears `updateScheduled`), and the one-minute
interval tick running `checkDateAndReset`. -/
inductive Ev
  | change (n : Notification)
  | fire (i : Instant)
  | tick (i : Instant)

/-- One step of the event-driven system. -/
def stepEv (st : PluginState) : Ev → PluginState
  | Ev.change n => handleChange st n
  | Ev.fire i =>
    match st.pendingFlushes with
    | [] => st
    | _ :: rest =>
      { updateDailyMdFile st i with updateScheduled := false, pendingFlushes := rest }
  | Ev.tick i => checkDateAndReset st i

/-- A run of editor-change notifications only. -/
def runChanges (st : PluginState) (ns : List Notification) : PluginState :=
  ns.foldl handleChange st

example : wordsOf "the cat sat" = ["the", "cat", "sat"] := by decide
example : wordsOf "" = [] := by decide
example : wordsOf "a-b c_d" = ["a", "b", "c_d"] := by decide
example : countFreq ["cat", "cat", "sat"] = [("cat", 2), ("sat", 1)] := by decide
example :
    applyDeltas [("cat", 2)] (countFreq (wordsOf "cat cat"))
      (countFreq (wordsOf "cat")) = [("cat", 1)] := by decide
example :
    applyDeltas [("cat", 1)] (countFreq (wordsOf "cat"))
      (countFreq (wordsOf "")) = [] := by decide

theorem objGet_objSet (m : List (String × Int)) (k : String) (v : Int)
    (k' : String) :
    objGet (objSet m k v) k' = if k = k' then some v else objGet m k' := by
  induction m with
  | nil => simp [objSet, objGet]
  | cons p rest ih =>
    obtain ⟨k₀, v₀⟩ := p
    by_cases h : k₀ = k
    · subst h
      by_cases h2 : k₀ = k'
      · simp [objSet, objGet, h2]
      · simp [objSet, objGet, h2]
    · by_cases h2 : k₀ = k'
      · subst h2
        have h3 : ¬k = k₀ := fun e => h e.symm
        simp [objSet, objGet, h, h3]
      · simp [objSet, objGet, h, h2, ih]

theorem objGet_objDelete (m : List (String × Int)) (k k' : String) :
    objGet (objDelete m k) k' = if k = k' then none else objGet m k' := by
  induction m with
  | nil => simp [objDelete, objGet]
  | cons p rest ih =>
    obtain ⟨k₀, v₀⟩ := p
    by_cases h : k₀ = k
    · subst h
      rw [show objDelete ((k₀, v₀) :: rest) k₀ = objDelete rest k₀ by
        simp [objDelete]]
      rw [ih]
      by_cases h2 : k₀ = k' <;> simp [objGet, h2]
    · rw [show objDelete ((k₀, v₀) :: rest) k = (k₀, v₀) :: objDelete rest k by
        simp [objDelete, h]]
      by_cases h2 : k₀ = k'
      · subst h2
        have h3 : ¬k = k₀ := fun e => h e.symm
        simp [objGet, ih, h3]
      · simp [objGet, h2, ih]

theorem objDelete_objSet (m : List (String × Int)) (k : String) (v : Int) :
    objDelete (objSet m k v) k = objDelete m k := by
  induction m with
  | nil => simp [objSet, objDelete]
  | cons p rest ih =>
    obtain ⟨k₀, v₀⟩ := p
    by_cases h : k₀ = k
    · simp [objSet, objDelete, h]
    · simp [objSet, objDelete, h, ih]

theorem mem_keys_iff (m : List (String × Int)) (w : String) :
    w ∈ m.map Prod.fst ↔ (objGet m w).isSome := by
  induction m with
  | nil => simp [objGet]
  | cons p rest ih =>
    obtain ⟨k, v⟩ := p
    by_cases h : k = w
    · simp [objGet, h]
    · have h3 : ¬w = k := fun e => h e.symm
      simp [objGet, h, h3, ih]

theorem mem_of_objGet {m : List (String × Int)} {w : String} {v : Int}
    (h : objGet m w = some v) : (w, v) ∈ m := by
  induction m with
  | nil => simp [objGet] at h
  | cons p rest ih =>
    obtain ⟨k, v₀⟩ := p
    by_cases hk : k = w
    · subst hk
      simp [objGet] at h
      simp [h]
    · simp [objGet, hk] at h
      exact List.mem_cons_of_mem _ (ih h)

theorem countFold_get (ws : List String) (m : List (String × Int)) (w : String) :
    objGet (ws.foldl (fun m w => objSet m w ((objGet m w).getD 0 + 1)) m) w =
      if ws.count w = 0 then objGet m w
      else some ((objGet m w).getD 0 + (ws.count w : Int)) := by
  induction ws generalizing m with
  | nil => simp
  | cons a t ih =>
    rw [List.foldl_cons, ih]
    by_cases h : a = w
    · subst h
      rw [objGet_objSet, if_pos rfl]
      by_cases h2 : t.count a = 0
      · simp [h2, List.count_cons_self]
      · simp only [h2, if_false, List.count_cons_self, Option.getD_some]
        have : (t.count a + 1 : Nat) ≠ 0 := by omega
        simp only [this, if_false, Option.some.injEq]
        push_cast
        ring
    · rw [objGet_objSet, if_neg h, List.count_cons_of_ne (fun e => h e.symm)]

theorem objGet_countFreq (ws : List String) (w : String) :
    objGet (countFreq ws) w =
      if ws.count w = 0 then none else some (ws.count w : Int) := by
  unfold countFreq
  rw [countFold_get]
  simp [objGet]

theorem mem_firstDedupAux (l : List String) (seen : List String) (w : String) :
    w ∈ firstDedupAux seen l ↔ w ∈ l ∧ w ∉ seen := by
  induction l generalizing seen with
  | nil => simp [firstDedupAux]
  | cons a t ih =>
    by_cases h : seen.contains a
    · have ha : a ∈ seen := by simpa using h
      rw [firstDedupAux, if_pos h, ih]
      constructor
      · rintro ⟨hw, hs⟩
        exact ⟨List.mem_cons_of_mem a hw, hs⟩
      · rintro ⟨hw, hs⟩
        rcases List.mem_cons.mp hw with rfl | hw
        · exact absurd ha hs
        · exact ⟨hw, hs⟩
    · have ha : a ∉ seen := by simpa using h
      rw [firstDedupAux, if_neg h]
      rw [List.mem_cons, ih]
      constructor
      · rintro (rfl | ⟨hw, hs⟩)
        · exact ⟨List.mem_cons_self _ _, ha⟩
        · refine ⟨List.mem_cons_of_mem a hw, fun hseen => hs ?_⟩
          exact List.mem_cons_of_mem a hseen
      · rintro ⟨hw, hs⟩
        by_cases hwa : w = a
        · exact Or.inl hwa
        · rcases List.mem_cons.mp hw with rfl | hw
          · exact absurd rfl hwa
          · refine Or.inr ⟨hw, fun hmem => ?_⟩
            rcases List.mem_cons.mp hmem with rfl | hmem
            · exact hwa rfl
            · exact hs hmem

theorem nodup_firstDedupAux (l : List String) (seen : List String) :
    (firstDedupAux seen l).Nodup := by
  induction l generalizing seen with
  | nil => simp [firstDedupAux]
  | cons a t ih =>
    by_cases h : seen.contains a
    · rw [firstDedupAux, if_pos h]
      exact ih seen
    · rw [firstDedupAux, if_neg h]
      refine List.nodup_cons.mpr ⟨fun hmem => ?_, ih (a :: seen)⟩
      exact ((mem_firstDedupAux t (a :: seen) a).mp hmem).2 (List.mem_cons_self a seen)

theorem mem_firstDedup (l : List String) (w : String) :
    w ∈ firstDedup l ↔ w ∈ l := by
  unfold firstDedup
  rw [mem_firstDedupAux]
  simp

theorem nodup_firstDedup (l : List String) : (firstDedup l).Nodup :=
  nodup_firstDedupAux l []

/-- The value the delta loop of `handleChange` stores at key `w` when it
processes `w`, as a function of the value `cur` currently stored there. -/
def deltaVal (oldF newF : List (String × Int)) (cur : Option Int)
    (w : String) : Option Int :=
  let delta := (objGet newF w).getD 0 - (objGet oldF w).getD 0
  let v := if jsTruthy cur then cur.getD 0 + delta else delta
  if v ≤ 0 then none else some v

theorem deltaStep_get_self (oldF newF acc : List (String × Int)) (w : String) :
    objGet (deltaStep oldF newF acc w) w = deltaVal oldF newF (objGet acc w) w := by
  unfold deltaStep deltaVal
  by_cases ht : jsTruthy (objGet acc w)
  · simp only [ht, if_true]
    rw [objGet_objSet, if_pos rfl]
    simp only [Option.getD_some]
    split_ifs with h2
    · rw [objGet_objDelete, if_pos rfl]
    · rw [objGet_objSet, if_pos rfl]
  · simp only [ht, Bool.false_eq_true, if_false]
    rw [objGet_objSet, if_pos rfl]
    simp only [Option.getD_some]
    split_ifs with h2
    · rw [objGet_objDelete, if_pos rfl]
    · rw [objGet_objSet, if_pos rfl]

theorem deltaStep_get_ne (oldF newF acc : List (String × Int)) (word w : String)
    (h : w ≠ word) :
    objGet (deltaStep oldF newF acc word) w = objGet acc w := by
  have h2 : ¬(word = w) := fun e => h e.symm
  unfold deltaStep
  by_cases ht : jsTruthy (objGet acc word) <;>
    simp only [ht, if_true, Bool.false_eq_true, if_false] <;>
    split_ifs <;>
    simp [objGet_objDelete, objGet_objSet, h2]

theorem foldl_deltaStep_get (oldF newF : List (String × Int)) (ks : List String)
    (acc : List (String × Int)) (hnd : ks.Nodup) (w : String) :
    objGet (ks.foldl (deltaStep oldF newF) acc) w =
      if w ∈ ks then deltaVal oldF newF (objGet acc w) w else objGet acc w := by
  induction ks generalizing acc with
  | nil => simp
  | cons a t ih =>
    rw [List.foldl_cons]
    rcases List.nodup_cons.mp hnd with ⟨ha, ht⟩
    rw [ih _ ht]
    by_cases hw : w = a
    · subst hw
      rw [if_neg ha, if_pos (List.mem_cons_self w t), deltaStep_get_self]
    · rw [deltaStep_get_ne _ _ _ _ _ hw]
      by_cases hwt : w ∈ t
      · rw [if_pos hwt, if_pos (List.mem_cons_of_mem a hwt)]
      · rw [if_neg hwt, if_neg (by simp [List.mem_cons, hw, hwt])]

theorem applyDeltas_get (acc oldF newF : List (String × Int)) (w : String) :
    objGet (applyDeltas acc oldF newF) w =
      if (objGet oldF w).isSome ∨ (objGet newF w).isSome then
        deltaVal oldF newF (objGet acc w) w
      else objGet acc w := by
  unfold applyDeltas
  rw [foldl_deltaStep_get _ _ _ _ (nodup_firstDedup _) w]
  have hmem : (w ∈ firstDedup (oldF.map Prod.fst ++ newF.map Prod.fst)) ↔
      ((objGet oldF w).isSome ∨ (objGet newF w).isSome) := by
    rw [mem_firstDedup, List.mem_append, mem_keys_iff, mem_keys_iff]
  by_cases hm : (objGet oldF w).isSome ∨ (objGet newF w).isSome
  · rw [if_pos (hmem.mpr hm), if_pos hm]
  · rw [if_neg (fun hx => hm (hmem.mp hx)), if_neg hm]

/-- C1: for every pair of token sequences A and B, the signed per-word
delta loop of `handleChange`, applied to the frequency map obtained by
counting A, yields exactly (as a map) the frequency map obtained by
counting B; zero deltas leave no entry because deleted-to-zero keys are
removed. -/
theorem multiset_delta_roundtrip (A B : List String) (w : String) :
    objGet (applyDeltas (countFreq A) (countFreq A) (countFreq B)) w =
      objGet (countFreq B) w := by
  rw [applyDeltas_get]
  by_cases h1 : A.count w = 0 <;> by_cases h2 : B.count w = 0 <;>
    simp only [deltaVal, jsTruthy, objGet_countFreq, h1, h2, if_true, if_false,
      Option.isSome_none, Option.isSome_some, or_self, or_true, true_or,
      Option.getD_none, Option.getD_some, Bool.false_eq_true,
      bne_iff_ne, ne_eq]
  · have hb : ¬((B.count w : Int) - 0 ≤ 0) := by omega
    simp only [hb, if_false, Option.some.injEq]
    omega
  · have ha : ¬(A.count w : Int) = 0 := by omega
    simp only [ha, not_false_eq_true, if_true]
    have hv : (A.count w : Int) + ((0 : Int) - (A.count w : Int)) ≤ 0 := by omega
    simp [hv]
  · have ha : ¬(A.count w : Int) = 0 := by omega
    simp only [ha, not_false_eq_true, if_true]
    have hb : ¬((A.count w : Int) + ((B.count w : Int) - (A.count w : Int)) ≤ 0) := by
      omega
    simp only [hb, if_false, Option.some.injEq]
    omega

/-- The Aggregate Store invariant: every stored entry has a positive
count. -/
def Pos (m : List (String × Int)) : Prop := ∀ p ∈ m, 0 < p.2

instance (m : List (String × Int)) : Decidable (Pos m) := by
  unfold Pos
  infer_instance

theorem pos_objSet {m : List (String × Int)} {k : String} {v : Int}
    (h : Pos m) (hv : 0 < v) : Pos (objSet m k v) := by
  induction m with
  | nil =>
    intro p hp
    simp [objSet] at hp
    simp [hp, hv]
  | cons q rest ih =>
    obtain ⟨k₀, v₀⟩ := q
    have hrest : Pos rest := fun q hq => h q (List.mem_cons_of_mem _ hq)
    intro p hp
    by_cases hk : k₀ = k
    · simp only [objSet, hk, if_pos rfl] at hp
      rcases List.mem_cons.mp hp with rfl | hp
      · exact hv
      · exact h p (List.mem_cons_of_mem _ hp)
    · simp only [objSet, hk, if_false] at hp
      rcases List.mem_cons.mp hp with rfl | hp
      · exact h _ (List.mem_cons_self _ _)
      · exact ih hrest p hp

theorem mem_of_mem_objDelete {m : List (String × Int)} {k : String}
    {p : String × Int} (hp : p ∈ objDelete m k) : p ∈ m := by
  induction m with
  | nil => simp [objDelete] at hp
  | cons q rest ih =>
    obtain ⟨k₀, v₀⟩ := q
    by_cases hk : k₀ = k
    · simp only [objDelete, hk, if_pos rfl] at hp
      exact List.mem_cons_of_mem _ (ih hp)
    · simp only [objDelete, hk, if_false] at hp
      rcases List.mem_cons.mp hp with rfl | hp
      · exact List.mem_cons_self _ _
      · exact List.mem_cons_of_mem _ (ih hp)

theorem pos_objDelete {m : List (String × Int)} {k : String} (h : Pos m) :
    Pos (objDelete m k) := fun p hp => h p (mem_of_mem_objDelete hp)

theorem pos_deltaStep (oldF newF : List (String × Int))
    {acc : List (String × Int)} (w : String) (h : Pos acc) :
    Pos (deltaStep oldF newF acc w) := by
  unfold deltaStep
  by_cases ht : jsTruthy (objGet acc w) <;>
    simp only [ht, if_true, Bool.false_eq_true, if_false] <;>
    rw [objGet_objSet, if_pos rfl] <;>
    simp only [Option.getD_some] <;>
    split_ifs with h2
  · rw [objDelete_objSet]
    exact pos_objDelete h
  · exact pos_objSet h (by omega)
  · rw [objDelete_objSet]
    exact pos_objDelete h
  · exact pos_objSet h (by omega)

theorem pos_applyDeltas (oldF newF : List (String × Int))
    {acc : List (String × Int)} (h : Pos acc) :
    Pos (applyDeltas acc oldF newF) := by
  unfold applyDeltas
  generalize firstDedup (oldF.map Prod.fst ++ newF.map Prod.fst) = ks
  induction ks generalizing acc with
  | nil => exact h
  | cons a t ih => exact ih (pos_deltaStep oldF newF a h)

theorem trackIdentity_fields (st : PluginState) (n : Notification) :
    (trackIdentity st n).wordFrequency = st.wordFrequency ∧
    (trackIdentity st n).lastContent = st.lastContent ∧
    (trackIdentity st n).updateScheduled = st.updateScheduled ∧
    (trackIdentity st n).pendingFlushes = st.pendingFlushes := by
  cases hf : n.activeFile with
  | none => simp [trackIdentity, hf]
  | some path =>
    by_cases hp : path = st.currentFile <;> simp [trackIdentity, hf, hp]

theorem diffAndApply_wordFrequency (st : PluginState) (c : String) :
    (diffAndApply st c).wordFrequency =
      applyDeltas st.wordFrequency (countFreq (wordsOf st.lastContent))
        (countFreq (wordsOf c)) := by
  by_cases h : st.updateScheduled <;> simp [diffAndApply, h]

theorem diffAndApply_tracker (st : PluginState) (c : String) :
    (diffAndApply st c).fileInitialized = st.fileInitialized ∧
    (diffAndApply st c).lastContent = c := by
  by_cases h : st.updateScheduled <;> simp [diffAndApply, h]

theorem diffAndApply_sched (st : PluginState) (c : String) :
    ((diffAndApply st c).updateScheduled = true ∧
      (diffAndApply st c).pendingFlushes =
        (if st.updateScheduled then st.pendingFlushes
         else st.pendingFlushes ++ [1000])) := by
  by_cases h : st.updateScheduled <;> simp [diffAndApply, h]

theorem handleChange_cases (st : PluginState) (n : Notification) :
    handleChange st n =
      if n.isActiveEditor = true then
        if isExcludedNotification st n = true then st
        else if (trackIdentity st n).fileInitialized = false then
          { trackIdentity st n with
            lastContent := n.content, fileInitialized := true }
        else diffAndApply (trackIdentity st n) n.content
      else st := by
  unfold handleChange
  by_cases h1 : n.isActiveEditor
  · by_cases h2 : isExcludedNotification st n
    · simp [h1, h2]
    · by_cases h3 : (trackIdentity st n).fileInitialized <;>
        simp [h1, h2, h3]
  · simp [h1]

theorem pos_handleChange (st : PluginState) (n : Notification)
    (h : Pos st.wordFrequency) : Pos (handleChange st n).wordFrequency := by
  rw [handleChange_cases]
  by_cases h1 : n.isActiveEditor
  · by_cases h2 : isExcludedNotification st n
    · simpa [h1, h2] using h
    · by_cases h3 : (trackIdentity st n).fileInitialized
      · simp only [h1, h2, h3, Bool.true_eq_false, Bool.false_eq_true,
          if_true, if_false]
        rw [diffAndApply_wordFrequency, (trackIdentity_fields st n).1]
        exact pos_applyDeltas _ _ h
      · rw [Bool.not_eq_true] at h3
        simp only [h1, h2, h3, Bool.true_eq_false, Bool.false_eq_true,
          if_true, if_false]
        rw [show ({ trackIdentity st n with
            lastContent := n.content, fileInitialized := true} :
              PluginState).wordFrequency = (trackIdentity st n).wordFrequency
          from rfl]
        rw [(trackIdentity_fields st n).1]
        exact h
  · simpa [h1] using h

/-- C2: along every sequence of editor-change notifications starting from
a state whose aggregate has only positive entries, the aggregate
`wordFrequency` never holds a key with a value that is zero or negative:
an entry whose computed value drops to `<= 0` is deleted. -/
theorem aggregate_nonneg_invariant (st : PluginState) (ns : List Notification)
    (h : Pos st.wordFrequency) : Pos (runChanges st ns).wordFrequency := by
  induction ns generalizing st with
  | nil => exact h
  | cons n t ih => exact ih (handleChange st n) (pos_handleChange st n h)

/-- A neutral concrete plugin state used by the concrete instantiations:
fresh plugin, root folder, no exclusions, recorded date 2023-10-01. -/
def baseState : PluginState :=
  { settings_lastUpdated := ""
    settings_folderPath := ""
    settings_excludedFolders := ""
    wordFrequency := []
    dailyMdFile := none
    updateScheduled := false
    fileInitialized := false
    currentFile := ""
    lastContent := ""
    state_wordFrequency := some []
    state_lastKnownDate := some "2023-10-01"
    state_currentFile := some ""
    state_lastContent := some ""
    savedSlot := none
    pendingFlushes := []
    ledgerWrites := [] }

theorem aggregate_nonneg_invariant_witness :
    Pos ({ baseState with wordFrequency := [("cat", 1)] } :
      PluginState).wordFrequency ∧
    Pos (runChanges { baseState with wordFrequency := [("cat", 1)] }
      [⟨true, "dog", some "a.md"⟩, ⟨true, "dog dog", some "a.md"⟩]).wordFrequency :=
  ⟨by decide, aggregate_nonneg_invariant _ _ (by decide)⟩

/-- C8: a notification from the active editor for a non-excluded file
whose identity differs from the tracked one (or arriving while the
tracker is uninitialized) sets the baseline to the delivered content,
marks the tracker initialized, and changes neither the aggregate nor the
scheduled flushes, whatever the content is. -/
theorem new_document_baseline_suppression (st : PluginState)
    (n : Notification)
    (hact : n.isActiveEditor = true)
    (hexc : isExcludedNotification st n = false)
    (hnew : (∃ p, n.activeFile = some p ∧ p ≠ st.currentFile) ∨
      st.fileInitialized = false) :
    (handleChange st n).wordFrequency = st.wordFrequency ∧
    (handleChange st n).lastContent = n.content ∧
    (handleChange st n).fileInitialized = true ∧
    (handleChange st n).pendingFlushes = st.pendingFlushes := by
  have hfi : (trackIdentity st n).fileInitialized = false := by
    rcases hnew with ⟨p, hp, hne⟩ | hini
    · simp [trackIdentity, hp, hne]
    · cases hf : n.activeFile with
      | none => simp [trackIdentity, hf, hini]
      | some path =>
        by_cases hp : path = st.currentFile <;>
          simp [trackIdentity, hf, hp, hini]
  rw [handleChange_cases]
  simp only [hact, hexc, hfi, Bool.false_eq_true, if_true, if_false,
    eq_self_iff_true]
  exact ⟨(trackIdentity_fields st n).1, trivial, trivial,
    (trackIdentity_fields st n).2.2.2⟩

def stC8 : PluginState :=
  { baseState with
    wordFrequency := [("dog", 2)]
    fileInitialized := true
    currentFile := "a.md"
    lastContent := "dog dog" }

def nC8 : Notification :=
  { isActiveEditor := true
    content := "an entire preexisting file full of words"
    activeFile := some "b.md" }

theorem new_document_baseline_suppression_witness :
    (handleChange stC8 nC8).wordFrequency = stC8.wordFrequency ∧
    (handleChange stC8 nC8).lastContent = nC8.content ∧
    (handleChange stC8 nC8).fileInitialized = true ∧
    (handleChange stC8 nC8).pendingFlushes = stC8.pendingFlushes :=
  new_document_baseline_suppression stC8 nC8 rfl (by decide)
    (Or.inl ⟨"b.md", rfl, by decide⟩)

/-- C10: a notification whose `Editor` is not the editor of the active
Markdown view (or arriving with no active Markdown view) leaves the
whole plugin state unchanged and schedules nothing. -/
theorem inactive_editor_frame (st : PluginState) (n : Notification)
    (h : n.isActiveEditor = false) : handleChange st n = st := by
  rw [handleChange_cases]
  simp [h]

theorem inactive_editor_frame_witness :
    handleChange { baseState with wordFrequency := [("cat", 3)] }
      { isActiveEditor := false, content := "cat cat", activeFile := some "a.md" } =
      { baseState with wordFrequency := [("cat", 3)] } :=
  inactive_editor_frame _ _ rfl

/-- The debounce invariant: `updateScheduled` is set exactly when one
flush timer is outstanding, and every outstanding timer was armed with
the hard-coded 1000 ms delay. -/
def SchedInv (st : PluginState) : Prop :=
  st.pendingFlushes = if st.updateScheduled then [1000] else []

instance (st : PluginState) : Decidable (SchedInv st) := by
  unfold SchedInv
  infer_instance

theorem handleChange_sched (st : PluginState) (n : Notification)
    (h : SchedInv st) :
    SchedInv (handleChange st n) ∧
    ((handleChange st n).pendingFlushes = st.pendingFlushes ∨
      (st.updateScheduled = false ∧
        (handleChange st n).pendingFlushes = [1000])) := by
  rw [handleChange_cases]
  have hf := trackIdentity_fields st n
  by_cases h1 : n.isActiveEditor
  · rw [if_pos h1]
    by_cases h2 : isExcludedNotification st n
    · rw [if_pos h2]
      exact ⟨h, Or.inl rfl⟩
    · rw [if_neg h2]
      by_cases h3 : (trackIdentity st n).fileInitialized
      · rw [if_neg (by simp [h3])]
        have hs := diffAndApply_sched (trackIdentity st n) n.content
        constructor
        · show (diffAndApply (trackIdentity st n) n.content).pendingFlushes =
            if (diffAndApply (trackIdentity st n) n.content).updateScheduled
            then [1000] else []
          rw [hs.2, hf.2.2.1, hf.2.2.2, hs.1, if_pos rfl]
          by_cases hu : st.updateScheduled
          · rw [if_pos hu]
            unfold SchedInv at h
            rw [h, if_pos hu]
          · rw [if_neg hu]
            unfold SchedInv at h
            rw [h, if_neg hu]
            rfl
        · by_cases hu : st.updateScheduled
          · left
            rw [hs.2, hf.2.2.1, hf.2.2.2, if_pos hu]
          · right
            refine ⟨by simpa using hu, ?_⟩
            rw [hs.2, hf.2.2.1, hf.2.2.2, if_neg hu]
            unfold SchedInv at h
            rw [h, if_neg hu]
            rfl
      · rw [Bool.not_eq_true] at h3
        rw [if_pos h3]
        constructor
        · show (trackIdentity st n).pendingFlushes =
            if (trackIdentity st n).updateScheduled then [1000] else []
          rw [hf.2.2.1, hf.2.2.2]
          exact h
        · exact Or.inl hf.2.2.2
  · rw [if_neg (by simp [h1])]
    exact ⟨h, Or.inl rfl⟩

theorem updateDailyMdFile_sched (st : PluginState) (i : Instant) :
    (updateDailyMdFile st i).updateScheduled = st.updateScheduled ∧
    (updateDailyMdFile st i).pendingFlushes = st.pendingFlushes ∧
    (updateDailyMdFile st i).state_lastKnownDate = st.state_lastKnownDate := by
  simp [updateDailyMdFile]

theorem checkDateAndReset_sched (st : PluginState) (i : Instant)
    (h : SchedInv st) : SchedInv (checkDateAndReset st i) := by
  unfold checkDateAndReset
  split_ifs with hd
  · show (updateDailyMdFile _ i).pendingFlushes =
      if (updateDailyMdFile _ i).updateScheduled then [1000] else []
    rw [(updateDailyMdFile_sched _ i).1, (updateDailyMdFile_sched _ i).2.1]
    exact h
  · exact h

theorem stepEv_sched (st : PluginState) (e : Ev) (h : SchedInv st) :
    SchedInv (stepEv st e) := by
  cases e with
  | change n => exact (handleChange_sched st n h).1
  | fire i =>
    cases hp : st.pendingFlushes with
    | nil =>
      unfold stepEv
      rw [hp]
      exact h
    | cons d rest =>
      unfold SchedInv at h
      rw [hp] at h
      by_cases hu : st.updateScheduled
      · rw [hu, if_pos rfl] at h
        have hrest : rest = [] := by
          injection h with h1 h2
        unfold stepEv SchedInv
        rw [hp]
        simp [hrest]
      · rw [Bool.not_eq_true] at hu
        rw [hu] at h
        simp at h
  | tick i => exact checkDateAndReset_sched st i h

theorem run_sched (st : PluginState) (es : List Ev) (h : SchedInv st) :
    SchedInv (es.foldl stepEv st) := by
  induction es generalizing st with
  | nil => exact h
  | cons e t ih => exact ih (stepEv st e) (stepEv_sched st e h)

/-- C9 (amended): the flush scheduler is a trailing-edge debounce with a
fixed, hard-coded 1000-millisecond delay (the code has no
`updateFrequency` setting): from any state satisfying the scheduler
invariant, every reachable state has at most one outstanding flush; a
notification arriving while a flush is pending schedules no additional
flush; and any newly armed flush carries the 1000 ms delay. -/
theorem debounce_single_flush (st : PluginState) (h : SchedInv st) :
    (∀ es : List Ev, SchedInv (es.foldl stepEv st) ∧
      (es.foldl stepEv st).pendingFlushes.length ≤ 1) ∧
    (∀ n, st.updateScheduled = true →
      (handleChange st n).pendingFlushes = st.pendingFlushes) ∧
    (∀ n, (handleChange st n).pendingFlushes = st.pendingFlushes ∨
      (st.updateScheduled = false ∧
        (handleChange st n).pendingFlushes = [1000])) := by
  refine ⟨fun es => ?_, fun n hu => ?_, fun n => (handleChange_sched st n h).2⟩
  · have hinv := run_sched st es h
    refine ⟨hinv, ?_⟩
    unfold SchedInv at hinv
    rw [hinv]
    split_ifs <;> simp
  · rcases (handleChange_sched st n h).2 with h2 | ⟨h2, _⟩
    · exact h2
    · rw [hu] at h2
      simp at h2

def stC9 : PluginState :=
  { baseState with
    fileInitialized := true
    currentFile := "a.md"
    lastContent := "a" }

/-- C9 counterexample: from an idle tracking state, one edit schedules a
flush whose delay is the hard-coded 1000 ms, not the claimed
`updateFrequency` default of 10000 ms. -/
theorem flush_delay_cex :
    (handleChange stC9
      { isActiveEditor := true, content := "a b", activeFile := some "a.md" }
      ).pendingFlushes = [1000] ∧
    (1000 : Nat) ≠ 10000 := by decide

theorem debounce_single_flush_witness :
    SchedInv baseState ∧
    (SchedInv ([Ev.change
        { isActiveEditor := true, content := "a", activeFile := some "a.md" }
      ].foldl stepEv baseState) ∧
      ([Ev.change
        { isActiveEditor := true, content := "a", activeFile := some "a.md" }
      ].foldl stepEv baseState).pendingFlushes.length ≤ 1) :=
  ⟨by decide, (debounce_single_flush baseState (by decide)).1 _⟩

def stC5 : PluginState :=
  { baseState with
    wordFrequency := [("cat", 1)]
    fileInitialized := true
    currentFile := "a.md"
    lastContent := "cat" }

def nC5 : Notification :=
  { isActiveEditor := true, content := "", activeFile := some "a.md" }

/-- C5 counterexample: in TRACKING with baseline "cat" and aggregate
cat:1, a notification with empty content does not reset the tracker to
UNINITIALIZED and does apply the full negative delta: the tracker stays
initialized and the aggregate is emptied instead of staying at cat:1. -/
theorem empty_content_cex :
    (handleChange stC5 nC5).fileInitialized = true ∧
    (handleChange stC5 nC5).wordFrequency = [] := by decide

/-- C5 (amended): an empty `currentContent` arriving in TRACKING for the
tracked identity is handled as an ordinary diff, not as a reset: the
tracker remains TRACKING with baseline "", every word of the former
baseline is decremented by its multiplicity there (entries reaching
`<= 0` are removed), and all other keys are untouched. -/
theorem empty_content_applies_full_deletion (st : PluginState)
    (n : Notification)
    (hact : n.isActiveEditor = true)
    (hexc : isExcludedNotification st n = false)
    (hfile : n.activeFile = some st.currentFile)
    (hinit : st.fileInitialized = true)
    (hempty : n.content = "")
    (hpos : Pos st.wordFrequency) :
    (handleChange st n).fileInitialized = true ∧
    (handleChange st n).lastContent = "" ∧
    ∀ w, objGet (handleChange st n).wordFrequency w =
      (if (wordsOf st.lastContent).count w = 0 then objGet st.wordFrequency w
       else
        match objGet st.wordFrequency w with
        | none => none
        | some v =>
          if v ≤ ((wordsOf st.lastContent).count w : Int) then none
          else some (v - ((wordsOf st.lastContent).count w : Int))) := by
  have htr : trackIdentity st n = st := by
    simp [trackIdentity, hfile]
  rw [handleChange_cases]
  simp only [hact, hexc, htr, hinit, Bool.true_eq_false, Bool.false_eq_true,
    if_true, if_false]
  refine ⟨((diffAndApply_tracker st n.content).1).trans hinit,
    ((diffAndApply_tracker st n.content).2).trans hempty, fun w => ?_⟩
  rw [diffAndApply_wordFrequency, hempty]
  rw [show wordsOf "" = [] from rfl]
  rw [show countFreq [] = ([] : List (String × Int)) from rfl]
  rw [applyDeltas_get]
  by_cases hc : (wordsOf st.lastContent).count w = 0
  · rw [if_neg ?nomem, if_pos hc]
    case nomem =>
      rw [objGet_countFreq, if_pos hc]
      simp [objGet]
  · rw [if_pos ?mem, if_neg hc]
    case mem =>
      left
      rw [objGet_countFreq, if_neg hc]
      simp
    unfold deltaVal
    rw [show objGet ([] : List (String × Int)) w = none from rfl,
      objGet_countFreq, if_neg hc]
    simp only [Option.getD_none, Option.getD_some]
    cases hcur : objGet st.wordFrequency w with
    | none =>
      simp only [jsTruthy, Bool.false_eq_true, if_false]
      have hle : (0 : Int) - ((wordsOf st.lastContent).count w : Int) ≤ 0 := by
        omega
      rw [if_pos hle]
    | some v =>
      have hv : 0 < v := hpos _ (mem_of_objGet hcur)
      have hvne : (v != 0) = true := by
        simp only [bne_iff_ne, ne_eq]
        omega
      simp only [jsTruthy, hvne, if_true, Option.getD_some]
      by_cases hle :
          v + ((0 : Int) - ((wordsOf st.lastContent).count w : Int)) ≤ 0
      · have hle2 : v ≤ ((wordsOf st.lastContent).count w : Int) := by omega
        rw [if_pos hle, if_pos hle2]
      · have hle2 : ¬(v ≤ ((wordsOf st.lastContent).count w : Int)) := by omega
        rw [if_neg hle, if_neg hle2]
        congr 1
        omega

theorem empty_content_applies_full_deletion_witness :
    Pos stC5.wordFrequency ∧
    ((handleChange stC5 nC5).fileInitialized = true ∧
     (handleChange stC5 nC5).lastContent = "" ∧
     ∀ w, objGet (handleChange stC5 nC5).wordFrequency w =
       (if (wordsOf stC5.lastContent).count w = 0 then
          objGet stC5.wordFrequency w
        else
         match objGet stC5.wordFrequency w with
         | none => none
         | some v =>
           if v ≤ ((wordsOf stC5.lastContent).count w : Int) then none
           else some (v - ((wordsOf stC5.lastContent).count w : Int)))) :=
  ⟨by decide, empty_content_applies_full_deletion stC5 nC5 rfl (by decide)
    rfl rfl rfl (by decide)⟩

def stC3 : PluginState :=
  { baseState with
    wordFrequency := [("cat", 1)]
    fileInitialized := true
    currentFile := "a.md"
    lastContent := "cat"
    state_wordFrequency := some [("cat", 1)]
    state_currentFile := some "a.md"
    state_lastContent := some "cat" }

/-- C3: evaluating `checkDateAndReset` at a date change exhibits the bug:
only the persisted copy `state.wordFrequency` is cleared, while the live
aggregate still holds cat:1, the tracker is still initialized (not
returned to UNINITIALIZED), and the ledger written for the new day still
contains the word counted the day before. -/
theorem rollover_leaves_live_aggregate :
    (checkDateAndReset stC3 ⟨"2023-10-02", "2023-10-02"⟩).wordFrequency =
      [("cat", 1)] ∧
    (checkDateAndReset stC3 ⟨"2023-10-02", "2023-10-02"⟩).fileInitialized =
      true ∧
    (checkDateAndReset stC3 ⟨"2023-10-02", "2023-10-02"⟩).state_wordFrequency =
      some [] ∧
    (checkDateAndReset stC3 ⟨"2023-10-02", "2023-10-02"⟩).ledgerWrites =
      [("/WordScraper-2023-10-02.md",
        "```wordcloud\nsource: file\n```\n\ncat: 1")] := by decide

def iC4 : Instant := ⟨"2026-01-01", "2025-12-31"⟩

/-- C4 counterexample: at an instant whose local calendar date is still
2025-12-31 while the UTC date is already 2026-01-01, the date string the
code derives (via `toISOString`) is the UTC one, not the local one, and
the ledger file name is built from it. -/
theorem rollover_date_not_local_cex :
    iC4.localDate ≠ iC4.utcDate ∧
    currentDateString iC4 = iC4.utcDate ∧
    currentDateString iC4 ≠ iC4.localDate ∧
    dailyFileName "" iC4 = "/WordScraper-2026-01-01.md" := by decide

/-- C4 (amended): the calendar date used for rollover detection and for
the daily ledger file name is the UTC date obtained from `toISOString`,
not the locally-derived one: at every instant where the two differ, the
UTC date is used — in particular a rollover fires even when the recorded
date still equals today's local date. -/
theorem rollover_uses_utc_date (i : Instant) (st : PluginState) (fp : String)
    (h : i.localDate ≠ i.utcDate) :
    currentDateString i = i.utcDate ∧
    currentDateString i ≠ i.localDate ∧
    dailyFileName fp i = fp ++ "/WordScraper-" ++ i.utcDate ++ ".md" ∧
    (st.state_lastKnownDate = some i.localDate →
      (checkDateAndReset st i).state_lastKnownDate = some i.utcDate) := by
  refine ⟨rfl, fun e => h e.symm, rfl, fun hlast => ?_⟩
  unfold checkDateAndReset
  rw [if_pos ?cond]
  case cond =>
    rw [hlast]
    simp only [ne_eq, Option.some.injEq, currentDateString]
    exact h
  exact (updateDailyMdFile_sched _ i).2.2

theorem rollover_uses_utc_date_witness :
    iC4.localDate ≠ iC4.utcDate ∧
    (currentDateString iC4 = iC4.utcDate ∧
     currentDateString iC4 ≠ iC4.localDate ∧
     dailyFileName "" iC4 = "" ++ "/WordScraper-" ++ iC4.utcDate ++ ".md" ∧
     (({ baseState with state_lastKnownDate := some "2025-12-31" } :
        PluginState).state_lastKnownDate = some iC4.localDate →
      (checkDateAndReset
        { baseState with state_lastKnownDate := some "2025-12-31" }
        iC4).state_lastKnownDate = some iC4.utcDate)) :=
  ⟨by decide, rollover_uses_utc_date iC4
    { baseState with state_lastKnownDate := some "2025-12-31" } ""
    (by decide)⟩

/-- Modelled from the spec: the released plugin documented in the README
has a `stopwords` setting (newline-separated, compared
case-insensitively), but the code under src/ predates that setting and
filters nothing.  Tokenizer per spec section 4.1: split into maximal word
runs, lowercase each, and drop any token present in the stopword set. -/
def tokenizeSpec (text : String) (stopwords : List String) : List String :=
  ((wordsOf text).map strToLower).filter
    (fun t => !((stopwords.map strToLower).contains t))

/-- Modelled from the spec: the signed per-word delta of spec section 4.2
(zero entries omitted, so a word is a key of the delta exactly when this
value is nonzero). -/
def deltaSpec (oldTokens newTokens : List String) (w : String) : Int :=
  (newTokens.count w : Int) - (oldTokens.count w : Int)

theorem not_mem_tokenizeSpec (text : String) (stop : List String) (w : String)
    (h : w ∈ stop.map strToLower) : w ∉ tokenizeSpec text stop := by
  intro hmem
  unfold tokenizeSpec at hmem
  rw [List.mem_filter] at hmem
  have h2 := hmem.2
  simp only [Bool.not_eq_true'] at h2
  rw [List.contains_eq_any_beq] at h2
  have h3 : ¬((stop.map strToLower).any (w == ·) = true) := by
    rw [h2]
    exact Bool.false_ne_true
  rw [List.any_eq_true] at h3
  exact h3 ⟨w, h, by simp⟩

/-- C6: under the spec-modelled tokenizer with stopword filtering, a word
listed (case-insensitively) in the stopword set has zero delta for every
pair of contents, hence is never a key of the produced delta, and the
delta loop leaves the aggregate untouched at that key. -/
theorem stopword_never_in_delta (stop : List String) (a b : String)
    (w : String) (h : w ∈ stop.map strToLower) :
    deltaSpec (tokenizeSpec a stop) (tokenizeSpec b stop) w = 0 ∧
    ∀ agg, objGet (applyDeltas agg (countFreq (tokenizeSpec a stop))
      (countFreq (tokenizeSpec b stop))) w = objGet agg w := by
  have ha := not_mem_tokenizeSpec a stop w h
  have hb := not_mem_tokenizeSpec b stop w h
  have ca : (tokenizeSpec a stop).count w = 0 := List.count_eq_zero.mpr ha
  have cb : (tokenizeSpec b stop).count w = 0 := List.count_eq_zero.mpr hb
  have hga : objGet (countFreq (tokenizeSpec a stop)) w = none := by
    rw [objGet_countFreq, if_pos ca]
  have hgb : objGet (countFreq (tokenizeSpec b stop)) w = none := by
    rw [objGet_countFreq, if_pos cb]
  constructor
  · unfold deltaSpec
    rw [ca, cb]
    simp
  · intro agg
    rw [applyDeltas_get, hga, hgb]
    simp

theorem stopword_never_in_delta_witness :
    ("the" ∈ (["The"].map strToLower)) ∧
    (deltaSpec (tokenizeSpec "the cat" ["The"])
      (tokenizeSpec "dog the" ["The"]) "the" = 0 ∧
     ∀ agg, objGet (applyDeltas agg
       (countFreq (tokenizeSpec "the cat" ["The"]))
       (countFreq (tokenizeSpec "dog the" ["The"]))) "the" =
        objGet agg "the") :=
  ⟨by decide, stopword_never_in_delta ["The"] "the cat" "dog the" "the"
    (by decide)⟩

def storedC7 : DataJson :=
  { wordFrequency := some [("cat", 2)]
    lastKnownDate := some "2023-10-01"
    currentFile := some "a.md"
    lastContent := some "cat cat" }

def iC7 : Instant := ⟨"2023-10-01", "2023-10-01"⟩

/-- C7: evaluating `onload` at a persisted state holding cat:2 with
baseline "cat cat" shows the persistence bug: the live aggregate comes
back empty and the live baseline empty (the loaded `state` is never
copied into the working fields), the next notification merely
re-baselines so the restored-plus-diff aggregate differs from the
no-reload one, and a settings save overwrites the single storage slot,
erasing the persisted frequency map and baseline. -/
theorem reload_loses_state :
    (onloadState (some storedC7) iC7).wordFrequency = [] ∧
    (onloadState (some storedC7) iC7).lastContent = "" ∧
    (onloadState (some storedC7) iC7).fileInitialized = false ∧
    (onloadState (some storedC7) iC7).wordFrequency ≠ [("cat", 2)] ∧
    (onloadState (some storedC7) iC7).lastContent ≠ "cat cat" ∧
    (runChanges (onloadState (some storedC7) iC7)
      [{ isActiveEditor := true, content := "cat cat",
         activeFile := some "a.md" }]).wordFrequency = [] ∧
    ((saveSettingsData (onloadState (some storedC7) iC7)).savedSlot.bind
      (fun d => d.wordFrequency)) = none ∧
    ((saveSettingsData (onloadState (some storedC7) iC7)).savedSlot.bind
      (fun d => d.lastContent)) = none := by decide

end WordScraper
